import Mathlib

/-!
Shallow embedding of the Move module `admin_address::backend`
(disaster-relief crowdfunding platform): campaign registry, donation
accounting, and withdrawal authorization, together with the Aptos coin
primitives it calls (debit, merge, extract, deposit) and the Move
transaction semantics (an abort anywhere discards all effects of the call).
-/

namespace Backend

/-- Account addresses, modelled as natural numbers. -/
abbrev Addr := Nat

/-- The fixed module address `@admin_address` of the deployed contract. -/
def admin_address : Addr := 0

/-- Module error codes (source lines 8-13). -/
def E_NOT_OWNER : Nat := 1

def E_CAMPAIGN_NOT_FOUND : Nat := 2

def E_CAMPAIGN_COMPLETED : Nat := 3

def E_INSUFFICIENT_FUNDS : Nat := 4

def E_GOAL_NOT_REACHED : Nat := 5

def E_ALREADY_WITHDRAWN : Nat := 6

/-- Abort reasons.  The first six correspond to the module's error constants
(`E_INSUFFICIENT_FUNDS` is declared in the source but never raised).
`missingResource` is the VM abort of `borrow_global` on an absent resource,
and `insufficientBalance` the abort of `coin::withdraw` / `coin::extract`
when the coin value is too small. -/
inductive Err where
  | notOwner
  | campaignNotFound
  | campaignCompleted
  | insufficientFunds
  | goalNotReached
  | alreadyWithdrawn
  | missingResource
  | insufficientBalance
deriving DecidableEq

/-- The `Campaign` struct (source lines 16-24); byte vectors become `List Nat`. -/
structure Campaign where
  owner : Addr
  title : List Nat
  description : List Nat
  goal : Nat
  donated : Nat
  completed : Bool
  withdrawn : Bool
deriving DecidableEq

/-- The `CampaignStore` resource (source lines 27-30). -/
structure CampaignStore where
  campaigns : List Campaign
  next_id : Nat
deriving DecidableEq

/-- Global blockchain state: the `CampaignStore` and `CampaignFunds`
resources that may be published at each address (`CampaignFunds` is just a
coin amount), and every account's external `AptosCoin` balance. -/
structure GlobalState where
  stores : Addr → Option CampaignStore
  fundsRes : Addr → Option Nat
  balances : Addr → Nat

/-- `coin::withdraw` effect on the donor's account balance (the amount check
is done at the call site). -/
def debit (s : GlobalState) (a : Addr) (amt : Nat) : GlobalState :=
  { s with balances := fun x => if x = a then s.balances a - amt else s.balances x }

/-- `coin::deposit` effect on the recipient's account balance. -/
def credit (s : GlobalState) (a : Addr) (amt : Nat) : GlobalState :=
  { s with balances := fun x => if x = a then s.balances a + amt else s.balances x }

/-- Overwrite the `CampaignFunds` coin value held at `@admin_address`. -/
def setFunds (s : GlobalState) (v : Nat) : GlobalState :=
  { s with fundsRes := fun a => if a = admin_address then some v else s.fundsRes a }

/-- Overwrite the `CampaignStore` resource held at `@admin_address`. -/
def setStore (s : GlobalState) (st : CampaignStore) : GlobalState :=
  { s with stores := fun a => if a = admin_address then some st else s.stores a }

/-- `initialize` (source lines 38-53): publish an empty `CampaignStore`
and a zero `CampaignFunds` under the signer's address when absent.
It never aborts. -/
def initExec (admin_addr : Addr) (s : GlobalState) : GlobalState × Option Err :=
  let s1 :=
    match s.stores admin_addr with
    | some _ => s
    | none => { s with stores := fun a => if a = admin_addr then some { campaigns := [], next_id := 0 } else s.stores a }
  let s2 :=
    match s1.fundsRes admin_addr with
    | some _ => s1
    | none => { s1 with fundsRes := fun a => if a = admin_addr then some 0 else s1.fundsRes a }
  (s2, none)

/-- `create_campaign` (source lines 56-79): append a fresh campaign to the
store at `@admin_address` and bump `next_id`. -/
def createExec (creator : Addr) (title description : List Nat) (goal : Nat)
    (s : GlobalState) : GlobalState × Option Err :=
  match s.stores admin_address with
  | none => (s, some .missingResource)
  | some store =>
    (setStore s
      { campaigns := store.campaigns ++
          [{ owner := creator, title := title, description := description,
             goal := goal, donated := 0, completed := false, withdrawn := false }],
        next_id := store.next_id + 1 }, none)

/-- Lines 100-105 of `donate`: add the amount and set `completed` when the
goal is reached. -/
def donateUpdate (c : Campaign) (amount : Nat) : Campaign :=
  if c.goal ≤ c.donated + amount then
    { c with donated := c.donated + amount, completed := true }
  else { c with donated := c.donated + amount }

/-- `donate` (source lines 82-106), with effects applied in source order:
index check, completion check, coin withdrawal from the donor, merge into
the treasury, then the campaign update. -/
def donateExec (donor : Addr) (campaign_index amount : Nat)
    (s : GlobalState) : GlobalState × Option Err :=
  match s.stores admin_address with
  | none => (s, some .missingResource)
  | some store =>
    if h : campaign_index < store.campaigns.length then
      if (store.campaigns.get ⟨campaign_index, h⟩).completed then (s, some .campaignCompleted)
      else if s.balances donor < amount then (s, some .insufficientBalance)
      else
        match (debit s donor amount).fundsRes admin_address with
        | none => (debit s donor amount, some .missingResource)
        | some f =>
          (setStore (setFunds (debit s donor amount) (f + amount)) { store with campaigns := store.campaigns.set campaign_index (donateUpdate (store.campaigns.get ⟨campaign_index, h⟩) amount) }, none)
    else (s, some .campaignNotFound)

/-- `withdraw` (source lines 109-133): owner-only withdrawal of a completed,
not-yet-withdrawn campaign; extracts `donated` from the treasury and
deposits it to the caller. -/
def withdrawExec (owner_addr : Addr) (campaign_index : Nat)
    (s : GlobalState) : GlobalState × Option Err :=
  match s.stores admin_address with
  | none => (s, some .missingResource)
  | some store =>
    if h : campaign_index < store.campaigns.length then
      if (store.campaigns.get ⟨campaign_index, h⟩).owner = owner_addr then
        if (store.campaigns.get ⟨campaign_index, h⟩).completed then
          if (store.campaigns.get ⟨campaign_index, h⟩).withdrawn then (s, some .alreadyWithdrawn)
          else
            match s.fundsRes admin_address with
            | none => (s, some .missingResource)
            | some f =>
              if f < (store.campaigns.get ⟨campaign_index, h⟩).donated then (s, some .insufficientBalance)
              else
                (setStore (credit (setFunds s (f - (store.campaigns.get ⟨campaign_index, h⟩).donated)) owner_addr (store.campaigns.get ⟨campaign_index, h⟩).donated) { store with campaigns := store.campaigns.set campaign_index ({ store.campaigns.get ⟨campaign_index, h⟩ with withdrawn := true }) }, none)
        else (s, some .goalNotReached)
      else (s, some .notOwner)
    else (s, some .campaignNotFound)

/-- `admin_withdraw` (source lines 136-158): administrator-only emergency
withdrawal; does not require `completed`, and deposits to the campaign's
original owner. -/
def adminWithdrawExec (admin_addr : Addr) (campaign_index : Nat)
    (s : GlobalState) : GlobalState × Option Err :=
  if admin_addr = admin_address then
    match s.stores admin_address with
    | none => (s, some .missingResource)
    | some store =>
      if h : campaign_index < store.campaigns.length then
        if (store.campaigns.get ⟨campaign_index, h⟩).withdrawn then (s, some .alreadyWithdrawn)
        else
          match s.fundsRes admin_address with
          | none => (s, some .missingResource)
          | some f =>
            if f < (store.campaigns.get ⟨campaign_index, h⟩).donated then (s, some .insufficientBalance)
            else
              (setStore (credit (setFunds s (f - (store.campaigns.get ⟨campaign_index, h⟩).donated)) (store.campaigns.get ⟨campaign_index, h⟩).owner (store.campaigns.get ⟨campaign_index, h⟩).donated) { store with campaigns := store.campaigns.set campaign_index ({ store.campaigns.get ⟨campaign_index, h⟩ with withdrawn := true }) }, none)
      else (s, some .campaignNotFound)
  else (s, some .notOwner)

/-- `get_campaign_count` (source lines 163-170). -/
def get_campaign_count (s : GlobalState) : Nat :=
  match s.stores admin_address with
  | none => 0
  | some store => store.campaigns.length

/-- `get_campaign` (source lines 173-187): `borrow_global` aborts with a
missing-resource error before the index assert can run. -/
def get_campaign (index : Nat) (s : GlobalState) :
    Except Err (Addr × List Nat × List Nat × Nat × Nat × Bool × Bool) :=
  match s.stores admin_address with
  | none => .error .missingResource
  | some store =>
    if h : index < store.campaigns.length then
      let campaign := store.campaigns.get ⟨index, h⟩
      .ok (campaign.owner, campaign.title, campaign.description, campaign.goal,
           campaign.donated, campaign.completed, campaign.withdrawn)
    else .error .campaignNotFound

/-- The public entry functions of the module. -/
inductive Op where
  | initOp (admin_addr : Addr)
  | createOp (creator : Addr) (title description : List Nat) (goal : Nat)
  | donateOp (donor : Addr) (campaign_index amount : Nat)
  | withdrawOp (owner_addr : Addr) (campaign_index : Nat)
  | adminWithdrawOp (admin_addr : Addr) (campaign_index : Nat)

/-- Raw execution of one entry call, returning the partial state at the
point of return or abort. -/
def execOp : Op → GlobalState → GlobalState × Option Err
  | .initOp a, s => initExec a s
  | .createOp c t d g, s => createExec c t d g s
  | .donateOp d i amt, s => donateExec d i amt s
  | .withdrawOp o i, s => withdrawExec o i s
  | .adminWithdrawOp a i, s => adminWithdrawExec a i s

/-- Move transaction semantics: an aborted call leaves the state unchanged. -/
def step (op : Op) (s : GlobalState) : GlobalState :=
  match execOp op s with
  | (s', none) => s'
  | (_, some _) => s

/-- Run a list of transactions in order. -/
def runOps : List Op → GlobalState → GlobalState
  | [], s => s
  | op :: l, s => runOps l (step op s)

/-- A chain with no published resources and arbitrary coin balances. -/
def emptyState (b : Addr → Nat) : GlobalState :=
  { stores := fun _ => none, fundsRes := fun _ => none, balances := b }

/-- States reachable from an empty chain by transactions whose operations
all satisfy `P`. -/
inductive ReachableW (P : Op → Prop) : GlobalState → Prop where
  | base (b : Addr → Nat) : ReachableW P (emptyState b)
  | step (op : Op) {s : GlobalState} (hop : P op) (hs : ReachableW P s) :
      ReachableW P (step op s)

/-- States reachable by arbitrary transactions. -/
def Reachable : GlobalState → Prop := ReachableW fun _ => True

/-- The campaign list held at `@admin_address` (empty when unpublished). -/
def campaignsAt (s : GlobalState) : List Campaign :=
  match s.stores admin_address with
  | none => []
  | some store => store.campaigns

/-- The campaign at a given index, when it exists. -/
def campAt (s : GlobalState) (i : Nat) : Option Campaign :=
  (campaignsAt s)[i]?

/-- The `donated` field of campaign `i` (0 when absent). -/
def donatedAt (s : GlobalState) (i : Nat) : Nat :=
  match campAt s i with
  | some c => c.donated
  | none => 0

/-- The `goal` field of campaign `i` (0 when absent). -/
def goalAt (s : GlobalState) (i : Nat) : Nat :=
  match campAt s i with
  | some c => c.goal
  | none => 0

/-- The `completed` flag of campaign `i` (false when absent). -/
def completedAt (s : GlobalState) (i : Nat) : Bool :=
  match campAt s i with
  | some c => c.completed
  | none => false

/-- The `withdrawn` flag of campaign `i` (false when absent). -/
def withdrawnAt (s : GlobalState) (i : Nat) : Bool :=
  match campAt s i with
  | some c => c.withdrawn
  | none => false

/-- Total `donated` of the campaigns whose funds are still in escrow. -/
def pendingDonated (l : List Campaign) : Nat :=
  (l.map fun c => if c.withdrawn then 0 else c.donated).sum

/-- The treasury-sufficiency and bookkeeping invariant of the module:
the two resources are published together, `next_id` tracks the campaign
count, and the treasury covers every campaign not yet withdrawn. -/
def Inv (s : GlobalState) : Prop :=
  (∀ a, (s.stores a).isSome = (s.fundsRes a).isSome) ∧
  (∀ a st, s.stores a = some st → st.next_id = st.campaigns.length) ∧
  (∀ st f, s.stores admin_address = some st → s.fundsRes admin_address = some f →
    pendingDonated st.campaigns ≤ f)

/-! ### Basic lemmas about the state builders -/

@[simp] theorem debit_stores (s : GlobalState) (a : Addr) (amt : Nat) :
    (debit s a amt).stores = s.stores := rfl

@[simp] theorem debit_fundsRes (s : GlobalState) (a : Addr) (amt : Nat) :
    (debit s a amt).fundsRes = s.fundsRes := rfl

@[simp] theorem credit_stores (s : GlobalState) (a : Addr) (amt : Nat) :
    (credit s a amt).stores = s.stores := rfl

@[simp] theorem credit_fundsRes (s : GlobalState) (a : Addr) (amt : Nat) :
    (credit s a amt).fundsRes = s.fundsRes := rfl

@[simp] theorem setFunds_stores (s : GlobalState) (v : Nat) :
    (setFunds s v).stores = s.stores := rfl

@[simp] theorem setFunds_balances (s : GlobalState) (v : Nat) :
    (setFunds s v).balances = s.balances := rfl

@[simp] theorem setStore_fundsRes (s : GlobalState) (st : CampaignStore) :
    (setStore s st).fundsRes = s.fundsRes := rfl

@[simp] theorem setStore_balances (s : GlobalState) (st : CampaignStore) :
    (setStore s st).balances = s.balances := rfl

@[simp] theorem setStore_stores_admin (s : GlobalState) (st : CampaignStore) :
    (setStore s st).stores admin_address = some st := by
  simp [setStore]

theorem setStore_stores_other (s : GlobalState) (st : CampaignStore) (a : Addr)
    (h : a ≠ admin_address) : (setStore s st).stores a = s.stores a := by
  simp [setStore, h]

@[simp] theorem setFunds_fundsRes_admin (s : GlobalState) (v : Nat) :
    (setFunds s v).fundsRes admin_address = some v := by
  simp [setFunds]

theorem setFunds_fundsRes_other (s : GlobalState) (v : Nat) (a : Addr)
    (h : a ≠ admin_address) : (setFunds s v).fundsRes a = s.fundsRes a := by
  simp [setFunds, h]

@[simp] theorem credit_balances_self (s : GlobalState) (a : Addr) (amt : Nat) :
    (credit s a amt).balances a = s.balances a + amt := by
  simp [credit]

theorem credit_balances_other (s : GlobalState) (a : Addr) (amt : Nat) (x : Addr)
    (h : x ≠ a) : (credit s a amt).balances x = s.balances x := by
  simp [credit, h]

@[simp] theorem debit_balances_self (s : GlobalState) (a : Addr) (amt : Nat) :
    (debit s a amt).balances a = s.balances a - amt := by
  simp [debit]

theorem debit_balances_other (s : GlobalState) (a : Addr) (amt : Nat) (x : Addr)
    (h : x ≠ a) : (debit s a amt).balances x = s.balances x := by
  simp [debit, h]

/-! ### Step characterization -/

theorem step_of_err (op : Op) (s : GlobalState) (e : Err)
    (h : (execOp op s).2 = some e) : step op s = s := by
  unfold step
  rcases hr : execOp op s with ⟨s', e'⟩
  rw [hr] at h
  simp at h
  subst h
  rfl

theorem step_of_ok (op : Op) (s t : GlobalState)
    (h : execOp op s = (t, none)) : step op s = t := by
  unfold step
  rw [h]

theorem runOps_append (l1 l2 : List Op) (s : GlobalState) :
    runOps (l1 ++ l2) s = runOps l2 (runOps l1 s) := by
  induction l1 generalizing s with
  | nil => rfl
  | cons op l ih => simp [runOps, ih]

theorem reachableW_runOps (P : Op → Prop) (l : List Op) (s : GlobalState)
    (hl : ∀ op ∈ l, P op) (hs : ReachableW P s) : ReachableW P (runOps l s) := by
  induction l generalizing s with
  | nil => exact hs
  | cons op l ih =>
    exact ih _ (fun o ho => hl o (List.mem_cons_of_mem _ ho))
      (ReachableW.step op (hl op (List.mem_cons_self _ _)) hs)

/-! ### pendingDonated lemmas -/

theorem pendingDonated_append (l : List Campaign) (c : Campaign) :
    pendingDonated (l ++ [c]) =
      pendingDonated l + (if c.withdrawn then 0 else c.donated) := by
  simp [pendingDonated]

theorem pendingDonated_set (l : List Campaign) (i : Nat) (c : Campaign)
    (h : i < l.length) :
    pendingDonated (l.set i c) +
        (if (l.get ⟨i, h⟩).withdrawn then 0 else (l.get ⟨i, h⟩).donated) =
      pendingDonated l + (if c.withdrawn then 0 else c.donated) := by
  induction l generalizing i with
  | nil => simp at h
  | cons hd tl ih =>
    cases i with
    | zero => simp [pendingDonated]; ring
    | succ n =>
      have hn : n < tl.length := by simpa using h
      have := ih n hn
      simp only [List.set, pendingDonated, List.map, List.sum_cons,
        List.get_cons_succ] at *
      omega

theorem get_le_pendingDonated (l : List Campaign) (i : Nat) (h : i < l.length)
    (hw : (l.get ⟨i, h⟩).withdrawn = false) :
    (l.get ⟨i, h⟩).donated ≤ pendingDonated l := by
  induction l generalizing i with
  | nil => simp at h
  | cons hd tl ih =>
    cases i with
    | zero =>
      simp only [List.get] at hw ⊢
      simp [pendingDonated, hw]
    | succ n =>
      have hn : n < tl.length := by simpa using h
      have := ih n hn (by simpa [List.get_cons_succ] using hw)
      simp only [List.get_cons_succ]
      simp [pendingDonated] at this ⊢
      omega

/-! ### Inversion lemmas for successful executions -/

theorem createExec_ok {creator : Addr} {title description : List Nat} {goal : Nat}
    {s t : GlobalState} (h : createExec creator title description goal s = (t, none)) :
    ∃ store, s.stores admin_address = some store ∧
      t = setStore s { campaigns := store.campaigns ++ [{ owner := creator, title := title, description := description, goal := goal, donated := 0, completed := false, withdrawn := false }], next_id := store.next_id + 1 } := by
  unfold createExec at h
  rcases hst : s.stores admin_address with _ | store
  · simp [hst] at h
  · simp only [hst] at h
    refine ⟨store, rfl, ?_⟩
    injection h with h1 h2
    exact h1.symm

theorem donateExec_ok {donor : Addr} {i amt : Nat} {s t : GlobalState}
    (h : donateExec donor i amt s = (t, none)) :
    ∃ store f, s.stores admin_address = some store ∧
      s.fundsRes admin_address = some f ∧
      ∃ (hi : i < store.campaigns.length),
        (store.campaigns.get ⟨i, hi⟩).completed = false ∧
        amt ≤ s.balances donor ∧
        t = setStore (setFunds (debit s donor amt) (f + amt)) { store with campaigns := store.campaigns.set i (donateUpdate (store.campaigns.get ⟨i, hi⟩) amt) } := by
  unfold donateExec at h
  rcases hst : s.stores admin_address with _ | store
  · simp [hst] at h
  · simp only [hst] at h
    by_cases hi : i < store.campaigns.length
    · rw [dif_pos hi] at h
      by_cases hcomp : (store.campaigns.get ⟨i, hi⟩).completed = true
      · rw [if_pos hcomp] at h
        simp at h
      · rw [if_neg hcomp] at h
        by_cases hbal : s.balances donor < amt
        · rw [if_pos hbal] at h
          simp at h
        · rw [if_neg hbal] at h
          rcases hf : s.fundsRes admin_address with _ | f
          · have hf2 : (debit s donor amt).fundsRes admin_address = none := hf
            simp only [hf2] at h
            simp at h
          · have hf2 : (debit s donor amt).fundsRes admin_address = some f := hf
            simp only [hf2] at h
            refine ⟨store, f, rfl, rfl, hi, by simpa using hcomp, by omega, ?_⟩
            injection h with h1 h2
            exact h1.symm
    · rw [dif_neg hi] at h
      simp at h

theorem withdrawExec_ok {owner_addr : Addr} {i : Nat} {s t : GlobalState}
    (h : withdrawExec owner_addr i s = (t, none)) :
    ∃ store f, s.stores admin_address = some store ∧
      s.fundsRes admin_address = some f ∧
      ∃ (hi : i < store.campaigns.length),
        (store.campaigns.get ⟨i, hi⟩).owner = owner_addr ∧
        (store.campaigns.get ⟨i, hi⟩).completed = true ∧
        (store.campaigns.get ⟨i, hi⟩).withdrawn = false ∧
        (store.campaigns.get ⟨i, hi⟩).donated ≤ f ∧
        t = setStore (credit (setFunds s (f - (store.campaigns.get ⟨i, hi⟩).donated)) owner_addr (store.campaigns.get ⟨i, hi⟩).donated) { store with campaigns := store.campaigns.set i ({ store.campaigns.get ⟨i, hi⟩ with withdrawn := true }) } := by
  unfold withdrawExec at h
  rcases hst : s.stores admin_address with _ | store
  · simp [hst] at h
  · simp only [hst] at h
    by_cases hi : i < store.campaigns.length
    · rw [dif_pos hi] at h
      by_cases hown : (store.campaigns.get ⟨i, hi⟩).owner = owner_addr
      · rw [if_pos hown] at h
        by_cases hcomp : (store.campaigns.get ⟨i, hi⟩).completed = true
        · rw [if_pos hcomp] at h
          by_cases hw : (store.campaigns.get ⟨i, hi⟩).withdrawn = true
          · rw [if_pos hw] at h
            simp at h
          · rw [if_neg hw] at h
            rcases hf : s.fundsRes admin_address with _ | f
            · simp only [hf] at h
              simp at h
            · simp only [hf] at h
              by_cases hfd : f < (store.campaigns.get ⟨i, hi⟩).donated
              · rw [if_pos hfd] at h
                simp at h
              · rw [if_neg hfd] at h
                refine ⟨store, f, rfl, rfl, hi, hown, hcomp, by simpa using hw, by omega, ?_⟩
                injection h with h1 h2
                exact h1.symm
        · rw [if_neg hcomp] at h
          simp at h
      · rw [if_neg hown] at h
        simp at h
    · rw [dif_neg hi] at h
      simp at h

theorem adminWithdrawExec_ok {admin_addr : Addr} {i : Nat} {s t : GlobalState}
    (h : adminWithdrawExec admin_addr i s = (t, none)) :
    admin_addr = admin_address ∧
    ∃ store f, s.stores admin_address = some store ∧
      s.fundsRes admin_address = some f ∧
      ∃ (hi : i < store.campaigns.length),
        (store.campaigns.get ⟨i, hi⟩).withdrawn = false ∧
        (store.campaigns.get ⟨i, hi⟩).donated ≤ f ∧
        t = setStore (credit (setFunds s (f - (store.campaigns.get ⟨i, hi⟩).donated)) (store.campaigns.get ⟨i, hi⟩).owner (store.campaigns.get ⟨i, hi⟩).donated) { store with campaigns := store.campaigns.set i ({ store.campaigns.get ⟨i, hi⟩ with withdrawn := true }) } := by
  unfold adminWithdrawExec at h
  by_cases ha : admin_addr = admin_address
  · rw [if_pos ha] at h
    refine ⟨ha, ?_⟩
    rcases hst : s.stores admin_address with _ | store
    · simp [hst] at h
    · simp only [hst] at h
      by_cases hi : i < store.campaigns.length
      · rw [dif_pos hi] at h
        by_cases hw : (store.campaigns.get ⟨i, hi⟩).withdrawn = true
        · rw [if_pos hw] at h
          simp at h
        · rw [if_neg hw] at h
          rcases hf : s.fundsRes admin_address with _ | f
          · simp only [hf] at h
            simp at h
          · simp only [hf] at h
            by_cases hfd : f < (store.campaigns.get ⟨i, hi⟩).donated
            · rw [if_pos hfd] at h
              simp at h
            · rw [if_neg hfd] at h
              refine ⟨store, f, rfl, rfl, hi, by simpa using hw, by omega, ?_⟩
              injection h with h1 h2
              exact h1.symm
      · rw [dif_neg hi] at h
        simp at h
  · rw [if_neg ha] at h
    simp at h

theorem initExec_snd (admin_addr : Addr) (s : GlobalState) :
    (initExec admin_addr s).2 = none := rfl

theorem step_init (a : Addr) (s : GlobalState) :
    step (.initOp a) s = (initExec a s).1 := rfl

/-! ### Facts about donateUpdate -/

@[simp] theorem donateUpdate_owner (c : Campaign) (amt : Nat) :
    (donateUpdate c amt).owner = c.owner := by
  unfold donateUpdate
  split <;> rfl

@[simp] theorem donateUpdate_goal (c : Campaign) (amt : Nat) :
    (donateUpdate c amt).goal = c.goal := by
  unfold donateUpdate
  split <;> rfl

@[simp] theorem donateUpdate_donated (c : Campaign) (amt : Nat) :
    (donateUpdate c amt).donated = c.donated + amt := by
  unfold donateUpdate
  split <;> rfl

@[simp] theorem donateUpdate_withdrawn (c : Campaign) (amt : Nat) :
    (donateUpdate c amt).withdrawn = c.withdrawn := by
  unfold donateUpdate
  split <;> rfl

theorem donateUpdate_completed (c : Campaign) (amt : Nat) :
    (donateUpdate c amt).completed =
      (if c.goal ≤ c.donated + amt then true else c.completed) := by
  unfold donateUpdate
  split <;> rfl

theorem donateUpdate_completed_mono (c : Campaign) (amt : Nat)
    (h : c.completed = true) : (donateUpdate c amt).completed = true := by
  rw [donateUpdate_completed]
  split <;> simp [h]

/-! ### The invariant holds on every reachable state -/

theorem inv_emptyState (b : Addr → Nat) : Inv (emptyState b) := by
  refine ⟨fun a => ?_, fun a st h => ?_, fun st f h => ?_⟩ <;>
    simp [emptyState] at *

theorem inv_step_init (a : Addr) (s : GlobalState) (hInv : Inv s) :
    Inv (step (.initOp a) s) := by
  obtain ⟨h1, h2, h3⟩ := hInv
  rw [step_init]
  unfold initExec
  rcases hs : s.stores a with _ | store0
  · have hf : s.fundsRes a = none := by
      have hb := h1 a
      rw [hs] at hb
      rcases hfa : s.fundsRes a with _ | v
      · rfl
      · rw [hfa] at hb
        simp at hb
    simp only [hs, hf]
    refine ⟨fun x => ?_, fun x st h => ?_, fun st f hst hf2 => ?_⟩
    · by_cases hx : x = a <;> simp [hx, hs, hf, h1 x]
    · by_cases hx : x = a
      · subst hx
        simp at h
        simp [← h]
      · simp [hx] at h
        exact h2 x st h
    · by_cases hx : admin_address = a
      · simp [hx] at hst hf2
        simp [← hst, pendingDonated]
      · simp [hx] at hst hf2
        exact h3 st f hst hf2
  · have hf : ∃ v, s.fundsRes a = some v := by
      have hb := h1 a
      rw [hs] at hb
      rcases hfa : s.fundsRes a with _ | v
      · rw [hfa] at hb
        simp at hb
      · exact ⟨v, rfl⟩
    obtain ⟨v, hfv⟩ := hf
    simp only [hs, hfv]
    exact ⟨h1, h2, h3⟩

theorem inv_step_create (c : Addr) (ti de : List Nat) (g : Nat) (s : GlobalState)
    (hInv : Inv s) : Inv (step (.createOp c ti de g) s) := by
  obtain ⟨h1, h2, h3⟩ := hInv
  rcases hr : execOp (.createOp c ti de g) s with ⟨s', e⟩
  cases e with
  | some err =>
    rw [step_of_err _ _ err (by rw [hr])]
    exact ⟨h1, h2, h3⟩
  | none =>
    rw [step_of_ok _ _ s' hr]
    obtain ⟨store, hst, ht⟩ := createExec_ok (show createExec c ti de g s = (s', none) from hr)
    subst ht
    refine ⟨fun x => ?_, fun x st h => ?_, fun st f hst2 hf2 => ?_⟩
    · by_cases hx : x = admin_address
      · subst hx
        have hb := h1 admin_address
        rw [hst] at hb
        simp [setStore, ← hb]
      · simp [setStore, hx]
        exact h1 x
    · by_cases hx : x = admin_address
      · subst hx
        simp [setStore] at h
        have := h2 admin_address store hst
        simp [← h, this]
      · rw [setStore_stores_other _ _ _ hx] at h
        exact h2 x st h
    · simp [setStore] at hst2 hf2
      subst hst2
      simp [pendingDonated_append]
      exact h3 store f hst hf2

theorem inv_step_donate (d : Addr) (i amt : Nat) (s : GlobalState)
    (hInv : Inv s) : Inv (step (.donateOp d i amt) s) := by
  obtain ⟨h1, h2, h3⟩ := hInv
  rcases hr : execOp (.donateOp d i amt) s with ⟨s', e⟩
  cases e with
  | some err =>
    rw [step_of_err _ _ err (by rw [hr])]
    exact ⟨h1, h2, h3⟩
  | none =>
    rw [step_of_ok _ _ s' hr]
    obtain ⟨store, f, hst, hf, hi, hcomp, hbal, ht⟩ :=
      donateExec_ok (show donateExec d i amt s = (s', none) from hr)
    subst ht
    refine ⟨fun x => ?_, fun x st h => ?_, fun st f2 hst2 hf2 => ?_⟩
    · by_cases hx : x = admin_address
      · subst hx
        simp [setStore, setFunds]
      · simp [setStore, setFunds, debit, hx]
        exact h1 x
    · by_cases hx : x = admin_address
      · subst hx
        simp [setStore] at h
        have := h2 admin_address store hst
        simp [← h, this]
      · rw [setStore_stores_other _ _ _ hx] at h
        exact h2 x st h
    · simp [setStore, setFunds] at hst2 hf2
      subst hst2
      show pendingDonated (store.campaigns.set i (donateUpdate store.campaigns[i] amt)) ≤ f2
      have hpend := h3 store f hst hf
      have hset := pendingDonated_set store.campaigns i (donateUpdate (store.campaigns.get ⟨i, hi⟩) amt) hi
      simp only [donateUpdate_withdrawn, donateUpdate_donated, List.get_eq_getElem] at hset
      by_cases hw : (store.campaigns.get ⟨i, hi⟩).withdrawn = true
      all_goals simp only [List.get_eq_getElem] at hw
      · simp [hw] at hset
        omega
      · simp [hw] at hset
        omega

theorem inv_step_withdraw (o : Addr) (i : Nat) (s : GlobalState)
    (hInv : Inv s) : Inv (step (.withdrawOp o i) s) := by
  obtain ⟨h1, h2, h3⟩ := hInv
  rcases hr : execOp (.withdrawOp o i) s with ⟨s', e⟩
  cases e with
  | some err =>
    rw [step_of_err _ _ err (by rw [hr])]
    exact ⟨h1, h2, h3⟩
  | none =>
    rw [step_of_ok _ _ s' hr]
    obtain ⟨store, f, hst, hf, hi, hown, hcomp, hw, hfd, ht⟩ :=
      withdrawExec_ok (show withdrawExec o i s = (s', none) from hr)
    subst ht
    refine ⟨fun x => ?_, fun x st h => ?_, fun st f2 hst2 hf2 => ?_⟩
    · by_cases hx : x = admin_address
      · subst hx
        simp [setStore, setFunds]
      · simp [setStore, setFunds, credit, hx]
        exact h1 x
    · by_cases hx : x = admin_address
      · subst hx
        simp [setStore] at h
        have := h2 admin_address store hst
        simp [← h, this]
      · rw [setStore_stores_other _ _ _ hx] at h
        exact h2 x st h
    · simp [setStore, setFunds, credit] at hst2 hf2
      subst hst2
      show pendingDonated (store.campaigns.set i { owner := store.campaigns[i].owner, title := store.campaigns[i].title, description := store.campaigns[i].description, goal := store.campaigns[i].goal, donated := store.campaigns[i].donated, completed := store.campaigns[i].completed, withdrawn := true }) ≤ f2
      have hpend := h3 store f hst hf
      have hle : store.campaigns[i].donated ≤ pendingDonated store.campaigns := by
        simpa using get_le_pendingDonated store.campaigns i hi hw
      have hset := pendingDonated_set store.campaigns i
        ({ store.campaigns.get ⟨i, hi⟩ with withdrawn := true }) hi
      simp only [List.get_eq_getElem] at hset hw
      simp [hw] at hset
      omega

theorem inv_step_adminWithdraw (a : Addr) (i : Nat) (s : GlobalState)
    (hInv : Inv s) : Inv (step (.adminWithdrawOp a i) s) := by
  obtain ⟨h1, h2, h3⟩ := hInv
  rcases hr : execOp (.adminWithdrawOp a i) s with ⟨s', e⟩
  cases e with
  | some err =>
    rw [step_of_err _ _ err (by rw [hr])]
    exact ⟨h1, h2, h3⟩
  | none =>
    rw [step_of_ok _ _ s' hr]
    obtain ⟨ha, store, f, hst, hf, hi, hw, hfd, ht⟩ :=
      adminWithdrawExec_ok (show adminWithdrawExec a i s = (s', none) from hr)
    subst ht
    refine ⟨fun x => ?_, fun x st h => ?_, fun st f2 hst2 hf2 => ?_⟩
    · by_cases hx : x = admin_address
      · subst hx
        simp [setStore, setFunds]
      · simp [setStore, setFunds, credit, hx]
        exact h1 x
    · by_cases hx : x = admin_address
      · subst hx
        simp [setStore] at h
        have := h2 admin_address store hst
        simp [← h, this]
      · rw [setStore_stores_other _ _ _ hx] at h
        exact h2 x st h
    · simp [setStore, setFunds, credit] at hst2 hf2
      subst hst2
      show pendingDonated (store.campaigns.set i { owner := store.campaigns[i].owner, title := store.campaigns[i].title, description := store.campaigns[i].description, goal := store.campaigns[i].goal, donated := store.campaigns[i].donated, completed := store.campaigns[i].completed, withdrawn := true }) ≤ f2
      have hpend := h3 store f hst hf
      have hle : store.campaigns[i].donated ≤ pendingDonated store.campaigns := by
        simpa using get_le_pendingDonated store.campaigns i hi hw
      have hset := pendingDonated_set store.campaigns i
        ({ store.campaigns.get ⟨i, hi⟩ with withdrawn := true }) hi
      simp only [List.get_eq_getElem] at hset hw
      simp [hw] at hset
      omega

theorem inv_step (op : Op) (s : GlobalState) (hInv : Inv s) : Inv (step op s) := by
  cases op with
  | initOp a => exact inv_step_init a s hInv
  | createOp c ti de g => exact inv_step_create c ti de g s hInv
  | donateOp d i amt => exact inv_step_donate d i amt s hInv
  | withdrawOp o i => exact inv_step_withdraw o i s hInv
  | adminWithdrawOp a i => exact inv_step_adminWithdraw a i s hInv

theorem inv_reachableW {P : Op → Prop} {s : GlobalState}
    (h : ReachableW P s) : Inv s := by
  induction h with
  | base b => exact inv_emptyState b
  | step op hop hs ih => exact inv_step op _ ih

theorem inv_reachable {s : GlobalState} (h : Reachable s) : Inv s :=
  inv_reachableW h

/-! ### List.get? helper lemmas -/

theorem get?_set_self {α : Type} (l : List α) (j : Nat) (c : α) (h : j < l.length) :
    (l.set j c)[j]? = some c := by
  induction l generalizing j with
  | nil => simp at h
  | cons hd tl ih =>
    cases j with
    | zero => simp
    | succ n => simpa using ih n (by simpa using h)

theorem get?_set_ne {α : Type} (l : List α) (i j : Nat) (c : α) (h : i ≠ j) :
    (l.set j c)[i]? = l[i]? := by
  induction l generalizing i j with
  | nil => simp
  | cons hd tl ih =>
    cases j with
    | zero =>
      cases i with
      | zero => exact absurd rfl h
      | succ n => simp
    | succ m =>
      cases i with
      | zero => simp
      | succ n => simpa using ih n m (by omega)

theorem get?_append_lt {α : Type} (l l2 : List α) (i : Nat) (h : i < l.length) :
    (l ++ l2)[i]? = l[i]? := by
  induction l generalizing i with
  | nil => simp at h
  | cons hd tl ih =>
    cases i with
    | zero => simp
    | succ n => simpa using ih n (by simpa using h)

theorem get?_some_lt {α : Type} {l : List α} {i : Nat} {c : α}
    (h : l[i]? = some c) : i < l.length := by
  induction l generalizing i with
  | nil => simp at h
  | cons hd tl ih =>
    cases i with
    | zero => simp
    | succ n =>
      have := ih (by simpa using h)
      simpa using Nat.succ_lt_succ this

theorem get?_eq_some_get {α : Type} (l : List α) (i : Nat) (h : i < l.length) :
    l[i]? = some (l.get ⟨i, h⟩) := by
  induction l generalizing i with
  | nil => simp at h
  | cons hd tl ih =>
    cases i with
    | zero => simp
    | succ n => simpa using ih n (by simpa using h)

theorem get?_len_le {α : Type} (l : List α) (i : Nat) (h : l.length ≤ i) :
    l[i]? = none := by
  induction l generalizing i with
  | nil => simp
  | cons hd tl ih =>
    cases i with
    | zero => simp at h
    | succ n => simpa using ih n (by simpa using h)

/-! ### campAt lemmas -/

theorem campAt_of_store {s : GlobalState} {store : CampaignStore}
    (hst : s.stores admin_address = some store) (i : Nat) :
    campAt s i = store.campaigns[i]? := by
  simp [campAt, campaignsAt, hst]

theorem campAt_none {s : GlobalState} (hst : s.stores admin_address = none)
    (i : Nat) : campAt s i = none := by
  simp [campAt, campaignsAt, hst]

theorem campAt_setStore (u : GlobalState) (st2 : CampaignStore) (i : Nat) :
    campAt (setStore u st2) i = st2.campaigns[i]? := by
  simp [campAt, campaignsAt, setStore]

theorem initExec_campAt (a : Addr) (s : GlobalState) (i : Nat) :
    campAt ((initExec a s).1) i = campAt s i ∨
    (s.stores admin_address = none ∧ campAt ((initExec a s).1) i = none) := by
  unfold initExec
  rcases hs : s.stores a with _ | st0
  · by_cases ha : a = admin_address
    · subst ha
      right
      refine ⟨hs, ?_⟩
      rcases hf : s.fundsRes admin_address with _ | v <;>
        simp [hs, hf, campAt, campaignsAt]
    · left
      have hne : admin_address ≠ a := fun hh => ha hh.symm
      rcases hf : s.fundsRes a with _ | v <;>
        simp [hs, hf, campAt, campaignsAt, hne]
  · left
    rcases hf : s.fundsRes a with _ | v <;> simp [hs, hf, campAt, campaignsAt]

/-- How one transaction can change a campaign: it is left alone, updated by
an accepted donation, or marked withdrawn (by either withdrawal path). -/
theorem campAt_step_fwd (op : Op) (s : GlobalState) (i : Nat) (c : Campaign)
    (h : campAt s i = some c) :
    ∃ c', campAt (step op s) i = some c' ∧
      (c' = c ∨
       (∃ amt, c.completed = false ∧ c' = donateUpdate c amt) ∨
       (c.withdrawn = false ∧ c' = { c with withdrawn := true })) := by
  cases op with
  | initOp a =>
    rw [step_init]
    rcases initExec_campAt a s i with heq | ⟨hnone, heq⟩
    · exact ⟨c, by rw [heq, h], Or.inl rfl⟩
    · rw [campAt_none hnone] at h
      simp at h
  | createOp cr ti de g =>
    rcases hr : execOp (.createOp cr ti de g) s with ⟨s', e⟩
    cases e with
    | some err =>
      rw [step_of_err _ _ err (by rw [hr])]
      exact ⟨c, h, Or.inl rfl⟩
    | none =>
      rw [step_of_ok _ _ s' hr]
      obtain ⟨store, hst, ht⟩ := createExec_ok (show createExec cr ti de g s = (s', none) from hr)
      subst ht
      rw [campAt_of_store hst] at h
      have hi := get?_some_lt h
      refine ⟨c, ?_, Or.inl rfl⟩
      rw [campAt_setStore]
      show (store.campaigns ++ _)[i]? = some c
      rw [get?_append_lt _ _ _ hi]
      exact h
  | donateOp d j amt =>
    rcases hr : execOp (.donateOp d j amt) s with ⟨s', e⟩
    cases e with
    | some err =>
      rw [step_of_err _ _ err (by rw [hr])]
      exact ⟨c, h, Or.inl rfl⟩
    | none =>
      rw [step_of_ok _ _ s' hr]
      obtain ⟨store, f, hst, hf, hj, hcomp, hbal, ht⟩ :=
        donateExec_ok (show donateExec d j amt s = (s', none) from hr)
      subst ht
      rw [campAt_of_store hst] at h
      rw [campAt_setStore]
      by_cases hij : i = j
      · subst hij
        have hc : store.campaigns.get ⟨i, hj⟩ = c := by
          rw [get?_eq_some_get store.campaigns i hj] at h
          exact Option.some.inj h
        subst hc
        refine ⟨donateUpdate (store.campaigns.get ⟨i, hj⟩) amt, ?_,
          Or.inr (Or.inl ⟨amt, hcomp, rfl⟩)⟩
        exact get?_set_self store.campaigns i _ hj
      · refine ⟨c, ?_, Or.inl rfl⟩
        show (store.campaigns.set j _)[i]? = some c
        rw [get?_set_ne _ _ _ _ hij]
        exact h
  | withdrawOp o j =>
    rcases hr : execOp (.withdrawOp o j) s with ⟨s', e⟩
    cases e with
    | some err =>
      rw [step_of_err _ _ err (by rw [hr])]
      exact ⟨c, h, Or.inl rfl⟩
    | none =>
      rw [step_of_ok _ _ s' hr]
      obtain ⟨store, f, hst, hf, hj, hown, hcomp, hw, hfd, ht⟩ :=
        withdrawExec_ok (show withdrawExec o j s = (s', none) from hr)
      subst ht
      rw [campAt_of_store hst] at h
      rw [campAt_setStore]
      by_cases hij : i = j
      · subst hij
        have hc : store.campaigns.get ⟨i, hj⟩ = c := by
          rw [get?_eq_some_get store.campaigns i hj] at h
          exact Option.some.inj h
        subst hc
        refine ⟨{ store.campaigns.get ⟨i, hj⟩ with withdrawn := true }, ?_,
          Or.inr (Or.inr ⟨hw, rfl⟩)⟩
        exact get?_set_self store.campaigns i _ hj
      · refine ⟨c, ?_, Or.inl rfl⟩
        show (store.campaigns.set j _)[i]? = some c
        rw [get?_set_ne _ _ _ _ hij]
        exact h
  | adminWithdrawOp a j =>
    rcases hr : execOp (.adminWithdrawOp a j) s with ⟨s', e⟩
    cases e with
    | some err =>
      rw [step_of_err _ _ err (by rw [hr])]
      exact ⟨c, h, Or.inl rfl⟩
    | none =>
      rw [step_of_ok _ _ s' hr]
      obtain ⟨ha, store, f, hst, hf, hj, hw, hfd, ht⟩ :=
        adminWithdrawExec_ok (show adminWithdrawExec a j s = (s', none) from hr)
      subst ht
      rw [campAt_of_store hst] at h
      rw [campAt_setStore]
      by_cases hij : i = j
      · subst hij
        have hc : store.campaigns.get ⟨i, hj⟩ = c := by
          rw [get?_eq_some_get store.campaigns i hj] at h
          exact Option.some.inj h
        subst hc
        refine ⟨{ store.campaigns.get ⟨i, hj⟩ with withdrawn := true }, ?_,
          Or.inr (Or.inr ⟨hw, rfl⟩)⟩
        exact get?_set_self store.campaigns i _ hj
      · refine ⟨c, ?_, Or.inl rfl⟩
        show (store.campaigns.set j _)[i]? = some c
        rw [get?_set_ne _ _ _ _ hij]
        exact h

/-- `withdrawn` never reverts to false: one step. -/
theorem withdrawnAt_mono (op : Op) (s : GlobalState) (i : Nat)
    (h : withdrawnAt s i = true) : withdrawnAt (step op s) i = true := by
  unfold withdrawnAt at h ⊢
  rcases hc : campAt s i with _ | c
  · rw [hc] at h
    simp at h
  · rw [hc] at h
    obtain ⟨c', hc', hshape⟩ := campAt_step_fwd op s i c hc
    rw [hc']
    rcases hshape with rfl | ⟨amt, hcomp, rfl⟩ | ⟨hw, rfl⟩
    · exact h
    · simpa using h
    · rfl

/-- `completed` never reverts to false: one step. -/
theorem completedAt_mono (op : Op) (s : GlobalState) (i : Nat)
    (h : completedAt s i = true) : completedAt (step op s) i = true := by
  unfold completedAt at h ⊢
  rcases hc : campAt s i with _ | c
  · rw [hc] at h
    simp at h
  · rw [hc] at h
    obtain ⟨c', hc', hshape⟩ := campAt_step_fwd op s i c hc
    rw [hc']
    rcases hshape with rfl | ⟨amt, hcomp, rfl⟩ | ⟨hw, rfl⟩
    · exact h
    · simp [hcomp] at h
    · simpa using h

/-- `withdrawn` never reverts to false: any sequence of transactions. -/
theorem withdrawnAt_mono_runOps (l : List Op) (s : GlobalState) (i : Nat)
    (h : withdrawnAt s i = true) : withdrawnAt (runOps l s) i = true := by
  induction l generalizing s with
  | nil => exact h
  | cons op l ih => exact ih _ (withdrawnAt_mono op s i h)

theorem get?_concat_self {α : Type} (l : List α) (x : α) :
    (l ++ [x])[l.length]? = some x := by
  induction l with
  | nil => simp
  | cons hd tl ih => simpa using ih

/-- An operation that is not the administrator's emergency withdrawal. -/
def NoAdminWithdraw (op : Op) : Prop :=
  ∀ a j, op ≠ Op.adminWithdrawOp a j

/-- The spec's §3 implication `withdrawn → completed`, as a state predicate. -/
def WithdrawnImpliesCompleted (s : GlobalState) : Prop :=
  ∀ i c, campAt s i = some c → c.withdrawn = true → c.completed = true

theorem wic_step (op : Op) (s : GlobalState) (hop : NoAdminWithdraw op)
    (h : WithdrawnImpliesCompleted s) :
    WithdrawnImpliesCompleted (step op s) := by
  cases op with
  | initOp a =>
    intro i c hc hw
    rw [step_init] at hc
    rcases initExec_campAt a s i with heq | ⟨hnone, heq⟩
    · rw [heq] at hc
      exact h i c hc hw
    · rw [heq] at hc
      cases hc
  | createOp cr ti de g =>
    intro i c hc hw
    rcases hr : execOp (.createOp cr ti de g) s with ⟨s', e⟩
    cases e with
    | some err =>
      rw [step_of_err _ _ err (by rw [hr])] at hc
      exact h i c hc hw
    | none =>
      rw [step_of_ok _ _ s' hr] at hc
      obtain ⟨store, hst, ht⟩ := createExec_ok (show createExec cr ti de g s = (s', none) from hr)
      subst ht
      rw [campAt_setStore] at hc
      by_cases hi : i < store.campaigns.length
      · rw [show ({ campaigns := store.campaigns ++ _, next_id := store.next_id + 1 } : CampaignStore).campaigns = store.campaigns ++ _ from rfl, get?_append_lt _ _ _ hi] at hc
        exact h i c (by rw [campAt_of_store hst]; exact hc) hw
      · rcases (by omega : i = store.campaigns.length ∨ store.campaigns.length + 1 ≤ i) with rfl | hgt
        · rw [show ({ campaigns := store.campaigns ++ _, next_id := store.next_id + 1 } : CampaignStore).campaigns = store.campaigns ++ _ from rfl, get?_concat_self] at hc
          obtain rfl := Option.some.inj hc
          simp at hw
        · rw [show ({ campaigns := store.campaigns ++ _, next_id := store.next_id + 1 } : CampaignStore).campaigns = store.campaigns ++ _ from rfl, get?_len_le _ _ (by simp; omega)] at hc
          cases hc
  | donateOp d j amt =>
    intro i c hc hw
    rcases hr : execOp (.donateOp d j amt) s with ⟨s', e⟩
    cases e with
    | some err =>
      rw [step_of_err _ _ err (by rw [hr])] at hc
      exact h i c hc hw
    | none =>
      rw [step_of_ok _ _ s' hr] at hc
      obtain ⟨store, f, hst, hf, hj, hcomp, hbal, ht⟩ :=
        donateExec_ok (show donateExec d j amt s = (s', none) from hr)
      subst ht
      rw [campAt_setStore] at hc
      by_cases hij : i = j
      · subst hij
        rw [show ({ campaigns := store.campaigns.set i _, next_id := store.next_id } : CampaignStore).campaigns = store.campaigns.set i _ from rfl, get?_set_self _ _ _ hj] at hc
        obtain rfl := Option.some.inj hc
        simp at hw
        have hcprev : (store.campaigns.get ⟨i, hj⟩).completed = true :=
          h i _ (by rw [campAt_of_store hst]; exact get?_eq_some_get _ _ hj) hw
        rw [hcprev] at hcomp
        cases hcomp
      · rw [show ({ campaigns := store.campaigns.set j _, next_id := store.next_id } : CampaignStore).campaigns = store.campaigns.set j _ from rfl, get?_set_ne _ _ _ _ hij] at hc
        exact h i c (by rw [campAt_of_store hst]; exact hc) hw
  | withdrawOp o j =>
    intro i c hc hw
    rcases hr : execOp (.withdrawOp o j) s with ⟨s', e⟩
    cases e with
    | some err =>
      rw [step_of_err _ _ err (by rw [hr])] at hc
      exact h i c hc hw
    | none =>
      rw [step_of_ok _ _ s' hr] at hc
      obtain ⟨store, f, hst, hf, hj, hown, hcomp, hwold, hfd, ht⟩ :=
        withdrawExec_ok (show withdrawExec o j s = (s', none) from hr)
      subst ht
      rw [campAt_setStore] at hc
      by_cases hij : i = j
      · subst hij
        rw [show ({ campaigns := store.campaigns.set i _, next_id := store.next_id } : CampaignStore).campaigns = store.campaigns.set i _ from rfl, get?_set_self _ _ _ hj] at hc
        obtain rfl := Option.some.inj hc
        simpa using hcomp
      · rw [show ({ campaigns := store.campaigns.set j _, next_id := store.next_id } : CampaignStore).campaigns = store.campaigns.set j _ from rfl, get?_set_ne _ _ _ _ hij] at hc
        exact h i c (by rw [campAt_of_store hst]; exact hc) hw
  | adminWithdrawOp a j => exact absurd rfl (hop a j)

theorem wic_reachable {s : GlobalState}
    (h : ReachableW NoAdminWithdraw s) : WithdrawnImpliesCompleted s := by
  induction h with
  | base b =>
    intro i c hc hw
    rw [campAt_none (by rfl)] at hc
    cases hc
  | step op hop hs ih => exact wic_step op _ hop ih

/-! ### Donation sequences on a single campaign -/

/-- Run a list of donation transactions (donor, amount) against campaign `i`. -/
def runDonates (i : Nat) : List (Addr × Nat) → GlobalState → GlobalState
  | [], s => s
  | (d, amt) :: l, s => runDonates i l (step (.donateOp d i amt) s)

/-- The amounts of the donations in the list that do not abort. -/
def acceptedDonates (i : Nat) : List (Addr × Nat) → GlobalState → List Nat
  | [], _ => []
  | (d, amt) :: l, s =>
    match donateExec d i amt s with
    | (t, none) => amt :: acceptedDonates i l t
    | (_, some _) => acceptedDonates i l s

theorem acceptedDonates_cons (i : Nat) (d : Addr) (amt : Nat)
    (l : List (Addr × Nat)) (s : GlobalState) :
    acceptedDonates i ((d, amt) :: l) s =
      (match donateExec d i amt s with
       | (t, none) => amt :: acceptedDonates i l t
       | (_, some _) => acceptedDonates i l s) := rfl

theorem runDonates_cons (i : Nat) (d : Addr) (amt : Nat)
    (l : List (Addr × Nat)) (s : GlobalState) :
    runDonates i ((d, amt) :: l) s = runDonates i l (step (.donateOp d i amt) s) := rfl

theorem donatedAt_eq {s : GlobalState} {i : Nat} {c : Campaign}
    (h : campAt s i = some c) : donatedAt s i = c.donated := by
  simp [donatedAt, h]

theorem goalAt_eq {s : GlobalState} {i : Nat} {c : Campaign}
    (h : campAt s i = some c) : goalAt s i = c.goal := by
  simp [goalAt, h]

theorem completedAt_eq {s : GlobalState} {i : Nat} {c : Campaign}
    (h : campAt s i = some c) : completedAt s i = c.completed := by
  simp [completedAt, h]

theorem withdrawnAt_eq {s : GlobalState} {i : Nat} {c : Campaign}
    (h : campAt s i = some c) : withdrawnAt s i = c.withdrawn := by
  simp [withdrawnAt, h]

theorem runDonates_append (i : Nat) (l1 l2 : List (Addr × Nat)) (s : GlobalState) :
    runDonates i (l1 ++ l2) s = runDonates i l2 (runDonates i l1 s) := by
  induction l1 generalizing s with
  | nil => rfl
  | cons p l ih =>
    rcases p with ⟨d, amt⟩
    simp [runDonates, ih]

theorem completedAt_mono_runDonates (i : Nat) (l : List (Addr × Nat))
    (s : GlobalState) (j : Nat) (h : completedAt s j = true) :
    completedAt (runDonates i l s) j = true := by
  induction l generalizing s with
  | nil => exact h
  | cons p l ih =>
    rcases p with ⟨d, amt⟩
    exact ih _ (completedAt_mono (.donateOp d i amt) s j h)

/-- Core accounting lemma for a run of donations against one campaign:
`donated` grows by exactly the accepted amounts, `goal` never changes, and
`completed` is characterized by the goal test together with whether any
donation has been accepted (`b` records whether the campaign's current
`completed` state already reflects the goal test). -/
theorem donate_run_spec (i : Nat) (ds : List (Addr × Nat)) :
    ∀ (s : GlobalState) (store : CampaignStore) (b : Bool),
      s.stores admin_address = some store →
      (s.fundsRes admin_address).isSome = true →
      i < store.campaigns.length →
      completedAt s i = (b && decide (goalAt s i ≤ donatedAt s i)) →
      donatedAt (runDonates i ds s) i = donatedAt s i + (acceptedDonates i ds s).sum ∧
      goalAt (runDonates i ds s) i = goalAt s i ∧
      completedAt (runDonates i ds s) i =
        ((b || decide (acceptedDonates i ds s ≠ [])) &&
          decide (goalAt s i ≤ donatedAt (runDonates i ds s) i)) := by
  induction ds with
  | nil =>
    intro s store b hst hf hi hcompl
    refine ⟨by simp [acceptedDonates, runDonates], rfl, ?_⟩
    simpa [acceptedDonates, runDonates] using hcompl
  | cons p l ih =>
    rcases p with ⟨d, amt⟩
    intro s store b hst hf hi hcompl
    rcases hr : donateExec d i amt s with ⟨t, e⟩
    cases e with
    | some err =>
      have hstep : step (.donateOp d i amt) s = s :=
        step_of_err _ _ err (by simpa using congrArg Prod.snd hr)
      have hacc : acceptedDonates i ((d, amt) :: l) s = acceptedDonates i l s := by
        rw [acceptedDonates_cons, hr]
      have hrun : runDonates i ((d, amt) :: l) s = runDonates i l s := by
        rw [runDonates_cons, hstep]
      rw [hacc, hrun]
      exact ih s store b hst hf hi hcompl
    | none =>
      have hstep : step (.donateOp d i amt) s = t := step_of_ok _ _ t hr
      have hacc : acceptedDonates i ((d, amt) :: l) s = amt :: acceptedDonates i l t := by
        rw [acceptedDonates_cons, hr]
      have hrun : runDonates i ((d, amt) :: l) s = runDonates i l t := by
        rw [runDonates_cons, hstep]
      obtain ⟨store2, f, hst2, hf2, hj, hcomp2, hbal2, ht⟩ := donateExec_ok hr
      subst ht
      have hcampS : campAt s i = some (store2.campaigns.get ⟨i, hj⟩) := by
        rw [campAt_of_store hst2]
        exact get?_eq_some_get _ _ hj
      have hcampT :
          campAt (setStore (setFunds (debit s d amt) (f + amt)) { store2 with campaigns := store2.campaigns.set i (donateUpdate (store2.campaigns.get ⟨i, hj⟩) amt) }) i =
            some (donateUpdate (store2.campaigns.get ⟨i, hj⟩) amt) := by
        rw [campAt_setStore]
        exact get?_set_self _ _ _ hj
      have hT := ih (setStore (setFunds (debit s d amt) (f + amt)) { store2 with campaigns := store2.campaigns.set i (donateUpdate (store2.campaigns.get ⟨i, hj⟩) amt) })
        ({ store2 with campaigns := store2.campaigns.set i (donateUpdate (store2.campaigns.get ⟨i, hj⟩) amt) }) true
        (setStore_stores_admin _ _)
        (by simp)
        (by simpa using hj)
        (by
          rw [completedAt_eq hcampT, goalAt_eq hcampT, donatedAt_eq hcampT]
          rw [donateUpdate_completed, donateUpdate_goal, donateUpdate_donated]
          rw [hcomp2]
          by_cases hgd : (store2.campaigns.get ⟨i, hj⟩).goal ≤ (store2.campaigns.get ⟨i, hj⟩).donated + amt <;>
            simp [hgd])
      rw [hrun, hacc]
      obtain ⟨ihd, ihg, ihc⟩ := hT
      refine ⟨?_, ?_, ?_⟩
      · rw [ihd, donatedAt_eq hcampT, donatedAt_eq hcampS, donateUpdate_donated]
        simp
        omega
      · rw [ihg, goalAt_eq hcampT, goalAt_eq hcampS, donateUpdate_goal]
      · rw [ihc, goalAt_eq hcampT, goalAt_eq hcampS, donateUpdate_goal]
        simp

/-! ### Concrete scenario states used by witnesses and counterexamples -/

/-- Every account starts with 1000 octas. -/
def bal0 : Addr → Nat := fun _ => 1000

/-- A fresh chain before any call. -/
def sInit : GlobalState := emptyState bal0

/-! ### Claim theorems -/

/-- Claim C5: whenever `withdraw` aborts, for any of its abort reasons, the
raw execution returns the input state unchanged: no campaign field is
modified and no funds move (all checks precede all effects, so even before
the transactional rollback nothing has changed). -/
theorem C5_withdraw_atomic (caller : Addr) (i : Nat) (s : GlobalState) (e : Err)
    (h : (withdrawExec caller i s).2 = some e) : (withdrawExec caller i s).1 = s := by
  rcases hst : s.stores admin_address with _ | store
  · simp [withdrawExec, hst]
  · by_cases hi : i < store.campaigns.length
    · by_cases hown : store.campaigns[i].owner = caller
      · by_cases hcomp : store.campaigns[i].completed = true
        · by_cases hw : store.campaigns[i].withdrawn = true
          · simp [withdrawExec, hst, hi, hown, hcomp, hw]
          · rcases hf : s.fundsRes admin_address with _ | f
            · simp [withdrawExec, hst, hi, hown, hcomp, hw, hf]
            · by_cases hfd : f < store.campaigns[i].donated
              · simp [withdrawExec, hst, hi, hown, hcomp, hw, hf, hfd]
              · simp [withdrawExec, hst, hi, hown, hcomp, hw, hf, hfd] at h
        · simp [withdrawExec, hst, hi, hown, hcomp]
      · simp [withdrawExec, hst, hi, hown]
    · simp [withdrawExec, hst, hi]

/-- Claim C5 witness: a concrete aborting call (no registry published)
returns the state unchanged. -/
theorem C5_witness :
    (withdrawExec 1 0 sInit).2 = some Err.missingResource ∧
    (withdrawExec 1 0 sInit).1 = sInit :=
  ⟨rfl, C5_withdraw_atomic 1 0 sInit Err.missingResource rfl⟩

/-- Claim C6: `donate` on an out-of-range index aborts with
`CampaignNotFound`, and `donate` on a completed campaign aborts with
`CampaignCompleted` for any amount; in both cases the raw execution and the
transaction leave the state (hence every campaign) unchanged. -/
theorem C6_donate_errors (s : GlobalState) (store : CampaignStore)
    (hst : s.stores admin_address = some store) (donor : Addr) (amt : Nat) :
    (∀ i, store.campaigns.length ≤ i →
      donateExec donor i amt s = (s, some .campaignNotFound) ∧
      step (.donateOp donor i amt) s = s) ∧
    (∀ i (hi : i < store.campaigns.length),
      (store.campaigns.get ⟨i, hi⟩).completed = true →
      donateExec donor i amt s = (s, some .campaignCompleted) ∧
      step (.donateOp donor i amt) s = s) := by
  constructor
  · intro i hlen
    have hnot : ¬ i < store.campaigns.length := by omega
    have hex : donateExec donor i amt s = (s, some .campaignNotFound) := by
      simp [donateExec, hst, hnot]
    exact ⟨hex, step_of_err _ _ _ (by simpa using congrArg Prod.snd hex)⟩
  · intro i hi hcomp
    simp only [List.get_eq_getElem] at hcomp
    have hex : donateExec donor i amt s = (s, some .campaignCompleted) := by
      simp [donateExec, hst, hi, hcomp]
    exact ⟨hex, step_of_err _ _ _ (by simpa using congrArg Prod.snd hex)⟩

/-- Claim C6 witness: concrete out-of-range and already-completed donations
abort as described and change nothing. -/
theorem C6_witness :
    (donateExec 7 5 1 (runOps [.initOp 0, .createOp 5 [] [] 0, .donateOp 7 0 1] sInit) =
      (runOps [.initOp 0, .createOp 5 [] [] 0, .donateOp 7 0 1] sInit, some .campaignNotFound)) ∧
    (donateExec 7 0 1 (runOps [.initOp 0, .createOp 5 [] [] 0, .donateOp 7 0 1] sInit) =
      (runOps [.initOp 0, .createOp 5 [] [] 0, .donateOp 7 0 1] sInit, some .campaignCompleted)) := by
  constructor
  · exact ((C6_donate_errors _ { campaigns := [{ owner := 5, title := [], description := [], goal := 0, donated := 1, completed := true, withdrawn := false }], next_id := 1 } rfl 7 1).1 5 (by decide)).1
  · exact ((C6_donate_errors _ { campaigns := [{ owner := 5, title := [], description := [], goal := 0, donated := 1, completed := true, withdrawn := false }], next_id := 1 } rfl 7 1).2 0 (by decide) rfl).1

/-- Claim C7 counterexample: on an uninitialized registry, `get_campaign`
aborts with the missing-resource error of `borrow_global`, not with the
module's `CampaignNotFound` code. -/
theorem C7_counterexample :
    get_campaign 0 sInit = Except.error Err.missingResource ∧
    Err.missingResource ≠ Err.campaignNotFound := ⟨rfl, by decide⟩

/-- Claim C7 (amended): `get_campaign` aborts whenever the lookup cannot be
answered — with `CampaignNotFound` when the registry exists and the index is
out of range, and with the missing-resource abort (not `CampaignNotFound`)
when the registry has not been initialized; for an in-range index it
returns the full tuple of the campaign's fields. -/
theorem C7_get_campaign (s : GlobalState) (i : Nat) :
    (s.stores admin_address = none →
      get_campaign i s = Except.error Err.missingResource) ∧
    (∀ store, s.stores admin_address = some store →
      store.campaigns.length ≤ i →
      get_campaign i s = Except.error Err.campaignNotFound) ∧
    (∀ store (hi : i < store.campaigns.length),
      s.stores admin_address = some store →
      get_campaign i s = Except.ok
        ((store.campaigns.get ⟨i, hi⟩).owner,
         (store.campaigns.get ⟨i, hi⟩).title,
         (store.campaigns.get ⟨i, hi⟩).description,
         (store.campaigns.get ⟨i, hi⟩).goal,
         (store.campaigns.get ⟨i, hi⟩).donated,
         (store.campaigns.get ⟨i, hi⟩).completed,
         (store.campaigns.get ⟨i, hi⟩).withdrawn)) := by
  refine ⟨fun hst => ?_, fun store hst hlen => ?_, fun store hi hst => ?_⟩
  · simp [get_campaign, hst]
  · have hnot : ¬ i < store.campaigns.length := by omega
    simp [get_campaign, hst, hnot]
  · simp [get_campaign, hst, hi]

/-- Claim C7 witness: the three branches at concrete states. -/
theorem C7_witness :
    get_campaign 0 sInit = Except.error Err.missingResource ∧
    get_campaign 3 (runOps [.initOp 0, .createOp 5 [] [] 10] sInit) =
      Except.error Err.campaignNotFound ∧
    get_campaign 0 (runOps [.initOp 0, .createOp 5 [] [] 10] sInit) =
      Except.ok (5, [], [], 10, 0, false, false) := by
  refine ⟨(C7_get_campaign sInit 0).1 rfl, ?_, ?_⟩
  · exact (C7_get_campaign _ 3).2.1 { campaigns := [{ owner := 5, title := [], description := [], goal := 10, donated := 0, completed := false, withdrawn := false }], next_id := 1 } rfl (by decide)
  · exact (C7_get_campaign _ 0).2.2 { campaigns := [{ owner := 5, title := [], description := [], goal := 10, donated := 0, completed := false, withdrawn := false }], next_id := 1 } (by decide) rfl

/-- Claim C8: `initialize` never aborts; it is idempotent (a second call by
the same signer is a no-op); and the first call on a fresh chain creates an
empty registry and a zero-balance treasury under the administrator identity
without touching any account balance. -/
theorem C8_init_idempotent (s : GlobalState) (a : Addr) :
    (initExec a s).2 = none ∧
    step (.initOp a) (step (.initOp a) s) = step (.initOp a) s ∧
    (s.stores admin_address = none → s.fundsRes admin_address = none →
      (step (.initOp admin_address) s).stores admin_address =
        some { campaigns := [], next_id := 0 } ∧
      (step (.initOp admin_address) s).fundsRes admin_address = some 0 ∧
      (step (.initOp admin_address) s).balances = s.balances) := by
  refine ⟨rfl, ?_, fun hs hf => ?_⟩
  · simp only [step_init]
    unfold initExec
    rcases hs : s.stores a with _ | st <;> rcases hf : s.fundsRes a with _ | v <;>
      simp [hs, hf]
  · rw [step_init]
    unfold initExec
    simp [hs, hf]

/-- Claim C8 witness: on the fresh chain, two calls equal one call, and the
first call creates the empty registry and zero treasury. -/
theorem C8_witness :
    step (.initOp admin_address) (step (.initOp admin_address) sInit) =
      step (.initOp admin_address) sInit ∧
    (step (.initOp admin_address) sInit).stores admin_address =
      some { campaigns := [], next_id := 0 } ∧
    (step (.initOp admin_address) sInit).fundsRes admin_address = some 0 := by
  refine ⟨(C8_init_idempotent sInit admin_address).2.1, ?_, ?_⟩
  · exact ((C8_init_idempotent sInit admin_address).2.2 rfl rfl).1
  · exact ((C8_init_idempotent sInit admin_address).2.2 rfl rfl).2.1

/-- Claim C2: in any reachable state, for an in-range campaign whose owner
is the caller, which is completed and not yet withdrawn, `withdraw`
succeeds, moves exactly `donated` from the treasury to the owner's balance
(and nothing else moves), and sets `withdrawn := true`; it aborts
`NotOwner` when the caller is not the owner, `GoalNotReached` when the
owner calls on an incomplete campaign, and `AlreadyWithdrawn` when the
owner calls on a completed campaign already withdrawn. -/
theorem C2_withdraw (s : GlobalState) (hreach : Reachable s)
    (store : CampaignStore) (hst : s.stores admin_address = some store)
    (i : Nat) (hi : i < store.campaigns.length) (caller : Addr) :
    ((store.campaigns[i].owner = caller ∧ store.campaigns[i].completed = true ∧
      store.campaigns[i].withdrawn = false) →
      ∃ f t, s.fundsRes admin_address = some f ∧
        store.campaigns[i].donated ≤ f ∧
        withdrawExec caller i s = (t, none) ∧
        t.balances caller = s.balances caller + store.campaigns[i].donated ∧
        (∀ x, x ≠ caller → t.balances x = s.balances x) ∧
        t.fundsRes admin_address = some (f - store.campaigns[i].donated) ∧
        campAt t i = some { store.campaigns[i] with withdrawn := true } ∧
        (∀ j, j ≠ i → campAt t j = campAt s j)) ∧
    (store.campaigns[i].owner ≠ caller →
      withdrawExec caller i s = (s, some .notOwner)) ∧
    (store.campaigns[i].owner = caller → store.campaigns[i].completed = false →
      withdrawExec caller i s = (s, some .goalNotReached)) ∧
    (store.campaigns[i].owner = caller → store.campaigns[i].completed = true →
      store.campaigns[i].withdrawn = true →
      withdrawExec caller i s = (s, some .alreadyWithdrawn)) := by
  obtain ⟨h1, h2, h3⟩ := inv_reachable hreach
  refine ⟨?_, ?_, ?_, ?_⟩
  · rintro ⟨hown, hcomp, hw⟩
    rcases hfop : s.fundsRes admin_address with _ | f
    · have hb := h1 admin_address
      rw [hst, hfop] at hb
      simp at hb
    · have hpend := h3 store f hst hfop
      have hle : store.campaigns[i].donated ≤ pendingDonated store.campaigns := by
        simpa using get_le_pendingDonated store.campaigns i hi (by simpa using hw)
      have hd : store.campaigns[i].donated ≤ f := le_trans hle hpend
      have hnl : ¬ f < store.campaigns[i].donated := by omega
      refine ⟨f,
        setStore (credit (setFunds s (f - store.campaigns[i].donated)) caller
          store.campaigns[i].donated)
          { store with campaigns :=
              store.campaigns.set i ({ store.campaigns[i] with withdrawn := true }) },
        rfl, hd, ?_, ?_, ?_, ?_, ?_, ?_⟩
      · simp [withdrawExec, hst, hi, hown, hcomp, hw, hfop, hnl]
      · simp [setStore, credit, setFunds]
      · intro x hx
        simp [setStore, credit, setFunds, hx]
      · simp [setStore, credit, setFunds]
      · rw [campAt_setStore]
        exact get?_set_self _ _ _ hi
      · intro j hj
        rw [campAt_setStore, campAt_of_store hst]
        exact get?_set_ne _ _ _ _ hj
  · intro hown
    simp [withdrawExec, hst, hi, hown]
  · intro hown hcomp
    simp [withdrawExec, hst, hi, hown, hcomp]
  · intro hown hcomp hw
    simp [withdrawExec, hst, hi, hown, hcomp, hw]

/-- Operations of the concrete C2 scenario: the owner account 5 creates a
campaign with goal 10 and account 7 donates 10, completing it. -/
def c2Ops : List Op := [.initOp 0, .createOp 5 [] [] 10, .donateOp 7 0 10]

/-- The C2 scenario state. -/
def w2 : GlobalState := runOps c2Ops sInit

/-- The completed campaign of the C2 scenario. -/
def w2camp : Campaign := { owner := 5, title := [], description := [], goal := 10, donated := 10, completed := true, withdrawn := false }

/-- The registry contents of the C2 scenario state. -/
def w2store : CampaignStore := { campaigns := [w2camp], next_id := 1 }

/-- Claim C2 witness: the owner's withdrawal on the concrete completed
campaign succeeds with the stated effects. -/
theorem C2_witness :
    ∃ f t, w2.fundsRes admin_address = some f ∧
      w2camp.donated ≤ f ∧
      withdrawExec 5 0 w2 = (t, none) ∧
      t.balances 5 = w2.balances 5 + w2camp.donated ∧
      (∀ x, x ≠ 5 → t.balances x = w2.balances x) ∧
      t.fundsRes admin_address = some (f - w2camp.donated) ∧
      campAt t 0 = some { w2camp with withdrawn := true } ∧
      (∀ j, j ≠ 0 → campAt t j = campAt w2 j) :=
  (C2_withdraw w2
    (reachableW_runOps _ c2Ops sInit (fun _ _ => trivial) (ReachableW.base bal0))
    w2store (by decide) 0 (by decide) 5).1 ⟨by decide, by decide, by decide⟩

/-- Claim C3: `admin_withdraw` aborts `NotOwner` for any caller other than
the fixed administrator identity; called by the administrator on an
in-range campaign not yet withdrawn it succeeds with no `completed`
requirement, credits the campaign's original owner (every other balance,
in particular the caller's when distinct, is unchanged), and sets
`withdrawn := true`; called by the administrator on an already-withdrawn
campaign it aborts `AlreadyWithdrawn`. -/
theorem C3_admin_withdraw (s : GlobalState) (hreach : Reachable s)
    (store : CampaignStore) (hst : s.stores admin_address = some store)
    (i : Nat) (hi : i < store.campaigns.length) (caller : Addr) :
    (caller ≠ admin_address →
      adminWithdrawExec caller i s = (s, some .notOwner)) ∧
    (caller = admin_address → store.campaigns[i].withdrawn = false →
      ∃ f t, s.fundsRes admin_address = some f ∧
        store.campaigns[i].donated ≤ f ∧
        adminWithdrawExec caller i s = (t, none) ∧
        t.balances store.campaigns[i].owner =
          s.balances store.campaigns[i].owner + store.campaigns[i].donated ∧
        (∀ x, x ≠ store.campaigns[i].owner → t.balances x = s.balances x) ∧
        t.fundsRes admin_address = some (f - store.campaigns[i].donated) ∧
        campAt t i = some { store.campaigns[i] with withdrawn := true } ∧
        (∀ j, j ≠ i → campAt t j = campAt s j)) ∧
    (caller = admin_address → store.campaigns[i].withdrawn = true →
      adminWithdrawExec caller i s = (s, some .alreadyWithdrawn)) := by
  obtain ⟨h1, h2, h3⟩ := inv_reachable hreach
  refine ⟨?_, ?_, ?_⟩
  · intro hc
    simp [adminWithdrawExec, hc]
  · intro hc hw
    subst hc
    rcases hfop : s.fundsRes admin_address with _ | f
    · have hb := h1 admin_address
      rw [hst, hfop] at hb
      simp at hb
    · have hpend := h3 store f hst hfop
      have hle : store.campaigns[i].donated ≤ pendingDonated store.campaigns := by
        simpa using get_le_pendingDonated store.campaigns i hi (by simpa using hw)
      have hd : store.campaigns[i].donated ≤ f := le_trans hle hpend
      have hnl : ¬ f < store.campaigns[i].donated := by omega
      refine ⟨f,
        setStore (credit (setFunds s (f - store.campaigns[i].donated))
          store.campaigns[i].owner store.campaigns[i].donated)
          { store with campaigns :=
              store.campaigns.set i ({ store.campaigns[i] with withdrawn := true }) },
        rfl, hd, ?_, ?_, ?_, ?_, ?_, ?_⟩
      · simp [adminWithdrawExec, hst, hi, hw, hfop, hnl]
      · simp [setStore, credit, setFunds]
      · intro x hx
        simp [setStore, credit, setFunds, hx]
      · simp [setStore, credit, setFunds]
      · rw [campAt_setStore]
        exact get?_set_self _ _ _ hi
      · intro j hj
        rw [campAt_setStore, campAt_of_store hst]
        exact get?_set_ne _ _ _ _ hj
  · intro hc hw
    subst hc
    simp [adminWithdrawExec, hst, hi, hw]

/-- Operations of the concrete C3 scenario: an incomplete campaign (goal
100, donated 30). -/
def c3Ops : List Op := [.initOp 0, .createOp 5 [] [] 100, .donateOp 7 0 30]

/-- The C3 scenario state. -/
def w3 : GlobalState := runOps c3Ops sInit

/-- The incomplete campaign of the C3 scenario. -/
def w3camp : Campaign := { owner := 5, title := [], description := [], goal := 100, donated := 30, completed := false, withdrawn := false }

/-- The registry contents of the C3 scenario state. -/
def w3store : CampaignStore := { campaigns := [w3camp], next_id := 1 }

/-- Claim C3 witness: the administrator's emergency withdrawal succeeds on
the concrete incomplete campaign and credits the original owner. -/
theorem C3_witness :
    ∃ f t, w3.fundsRes admin_address = some f ∧
      w3camp.donated ≤ f ∧
      adminWithdrawExec admin_address 0 w3 = (t, none) ∧
      t.balances w3camp.owner = w3.balances w3camp.owner + w3camp.donated ∧
      (∀ x, x ≠ w3camp.owner → t.balances x = w3.balances x) ∧
      t.fundsRes admin_address = some (f - w3camp.donated) ∧
      campAt t 0 = some { w3camp with withdrawn := true } ∧
      (∀ j, j ≠ 0 → campAt t j = campAt w3 j) :=
  (C3_admin_withdraw w3
    (reachableW_runOps _ c3Ops sInit (fun _ _ => trivial) (ReachableW.base bal0))
    w3store (by decide) 0 (by decide) admin_address).2.1 rfl (by decide)

/-- Claim C4: for any sequence of donations applied to a single freshly
created campaign (`donated = 0`, `completed = false`), the final `donated`
equals the sum of the accepted (non-aborting) donation amounts with no cap
at `goal` (overshoot retained in full), `completed` is true exactly when
some donation has been accepted and the accumulated `donated` has reached
`goal` (so it flips at the first accepted donation reaching the goal), and
once true after a prefix it remains true for the whole sequence. -/
theorem C4_donate_sequence (s : GlobalState) (store : CampaignStore)
    (hst : s.stores admin_address = some store)
    (hf : (s.fundsRes admin_address).isSome = true)
    (i : Nat) (hi : i < store.campaigns.length)
    (h0 : store.campaigns[i].donated = 0)
    (hc : store.campaigns[i].completed = false)
    (ds : List (Addr × Nat)) :
    donatedAt (runDonates i ds s) i = (acceptedDonates i ds s).sum ∧
    (completedAt (runDonates i ds s) i = true ↔
      acceptedDonates i ds s ≠ [] ∧
      store.campaigns[i].goal ≤ donatedAt (runDonates i ds s) i) ∧
    (∀ p q, ds = p ++ q →
      completedAt (runDonates i p s) i = true →
      completedAt (runDonates i ds s) i = true) := by
  have hcamp : campAt s i = some (store.campaigns.get ⟨i, hi⟩) := by
    rw [campAt_of_store hst]
    exact get?_eq_some_get _ _ hi
  obtain ⟨hd, hg, hcpl⟩ := donate_run_spec i ds s store false hst hf hi
    (by rw [completedAt_eq hcamp]; simpa using hc)
  refine ⟨?_, ?_, ?_⟩
  · rw [hd, donatedAt_eq hcamp]
    simpa using congrArg (fun n => n + (acceptedDonates i ds s).sum) h0
  · rw [hcpl, goalAt_eq hcamp]
    simp
  · intro p q hpq h
    subst hpq
    rw [runDonates_append]
    exact completedAt_mono_runDonates i q _ i h

/-- Operations of the concrete C4 scenario: one fresh campaign with goal 10. -/
def c4Ops : List Op := [.initOp 0, .createOp 5 [] [] 10]

/-- The C4 scenario state. -/
def w4 : GlobalState := runOps c4Ops sInit

/-- The fresh campaign of the C4 scenario. -/
def w4camp : Campaign := { owner := 5, title := [], description := [], goal := 10, donated := 0, completed := false, withdrawn := false }

/-- The registry contents of the C4 scenario state. -/
def w4store : CampaignStore := { campaigns := [w4camp], next_id := 1 }

/-- Claim C4 witness: two donations of 6 and 5 octas against the fresh
campaign with goal 10. -/
theorem C4_witness :
    donatedAt (runDonates 0 [(7, 6), (8, 5)] w4) 0 =
      (acceptedDonates 0 [(7, 6), (8, 5)] w4).sum ∧
    (completedAt (runDonates 0 [(7, 6), (8, 5)] w4) 0 = true ↔
      acceptedDonates 0 [(7, 6), (8, 5)] w4 ≠ [] ∧
      w4camp.goal ≤ donatedAt (runDonates 0 [(7, 6), (8, 5)] w4) 0) ∧
    (∀ p q, [(7, 6), (8, 5)] = p ++ q →
      completedAt (runDonates 0 p w4) 0 = true →
      completedAt (runDonates 0 [(7, 6), (8, 5)] w4) 0 = true) :=
  C4_donate_sequence w4 w4store (by decide) (by decide) 0 (by decide)
    (by decide) (by decide) [(7, 6), (8, 5)]

/-- Claim C9: `donate` never checks `withdrawn`: on a campaign with
`completed = false` and `withdrawn = true` (reachable via `admin_withdraw`
on an incomplete campaign), a donation of any amount the donor can pay
succeeds and increases `donated`, yet the campaign stays withdrawn and
every later `withdraw` or `admin_withdraw` on it aborts, so no withdrawal
path can ever release those funds again. -/
theorem C9_donate_ignores_withdrawn (s : GlobalState) (store : CampaignStore)
    (hst : s.stores admin_address = some store) (f : Nat)
    (hf : s.fundsRes admin_address = some f)
    (i : Nat) (hi : i < store.campaigns.length)
    (hcomp : store.campaigns[i].completed = false)
    (hw : store.campaigns[i].withdrawn = true)
    (donor : Addr) (amt : Nat) (hbal : amt ≤ s.balances donor) :
    ∃ t, donateExec donor i amt s = (t, none) ∧
      donatedAt t i = donatedAt s i + amt ∧
      withdrawnAt t i = true ∧
      (∀ l caller, (withdrawExec caller i (runOps l t)).2 ≠ none) ∧
      (∀ l caller, (adminWithdrawExec caller i (runOps l t)).2 ≠ none) := by
  have hnl : ¬ s.balances donor < amt := by omega
  have hcampS : campAt s i = some (store.campaigns.get ⟨i, hi⟩) := by
    rw [campAt_of_store hst]
    exact get?_eq_some_get _ _ hi
  refine ⟨setStore (setFunds (debit s donor amt) (f + amt))
    { store with campaigns :=
        store.campaigns.set i (donateUpdate (store.campaigns.get ⟨i, hi⟩) amt) },
    ?_, ?_, ?_, ?_, ?_⟩
  · simp [donateExec, hst, hi, hcomp, hnl, hf]
  · have hcampT : campAt (setStore (setFunds (debit s donor amt) (f + amt))
        { store with campaigns :=
            store.campaigns.set i (donateUpdate (store.campaigns.get ⟨i, hi⟩) amt) }) i =
          some (donateUpdate (store.campaigns.get ⟨i, hi⟩) amt) := by
      rw [campAt_setStore]
      exact get?_set_self _ _ _ hi
    rw [donatedAt_eq hcampT, donatedAt_eq hcampS, donateUpdate_donated]
  · have hcampT : campAt (setStore (setFunds (debit s donor amt) (f + amt))
        { store with campaigns :=
            store.campaigns.set i (donateUpdate (store.campaigns.get ⟨i, hi⟩) amt) }) i =
          some (donateUpdate (store.campaigns.get ⟨i, hi⟩) amt) := by
      rw [campAt_setStore]
      exact get?_set_self _ _ _ hi
    rw [withdrawnAt_eq hcampT, donateUpdate_withdrawn]
    simpa using hw
  · intro l caller h2
    have hwt : withdrawnAt (setStore (setFunds (debit s donor amt) (f + amt))
        { store with campaigns :=
            store.campaigns.set i (donateUpdate (store.campaigns.get ⟨i, hi⟩) amt) }) i = true := by
      rw [withdrawnAt_eq (by rw [campAt_setStore]; exact get?_set_self _ _ _ hi),
        donateUpdate_withdrawn]
      simpa using hw
    have hwu := withdrawnAt_mono_runOps l _ i hwt
    have hee : withdrawExec caller i (runOps l (setStore (setFunds (debit s donor amt) (f + amt))
        { store with campaigns :=
            store.campaigns.set i (donateUpdate (store.campaigns.get ⟨i, hi⟩) amt) })) =
        ((withdrawExec caller i (runOps l (setStore (setFunds (debit s donor amt) (f + amt))
        { store with campaigns :=
            store.campaigns.set i (donateUpdate (store.campaigns.get ⟨i, hi⟩) amt) }))).1, none) := by
      rw [← h2]
    obtain ⟨store', f', hst', hf', hi', hown', hcomp', hw', hfd', ht'⟩ := withdrawExec_ok hee
    have hfalse : withdrawnAt (runOps l (setStore (setFunds (debit s donor amt) (f + amt))
        { store with campaigns :=
            store.campaigns.set i (donateUpdate (store.campaigns.get ⟨i, hi⟩) amt) })) i = false := by
      rw [withdrawnAt_eq (by rw [campAt_of_store hst']; exact get?_eq_some_get _ _ hi')]
      exact hw'
    rw [hwu] at hfalse
    cases hfalse
  · intro l caller h2
    have hwt : withdrawnAt (setStore (setFunds (debit s donor amt) (f + amt))
        { store with campaigns :=
            store.campaigns.set i (donateUpdate (store.campaigns.get ⟨i, hi⟩) amt) }) i = true := by
      rw [withdrawnAt_eq (by rw [campAt_setStore]; exact get?_set_self _ _ _ hi),
        donateUpdate_withdrawn]
      simpa using hw
    have hwu := withdrawnAt_mono_runOps l _ i hwt
    have hee : adminWithdrawExec caller i (runOps l (setStore (setFunds (debit s donor amt) (f + amt))
        { store with campaigns :=
            store.campaigns.set i (donateUpdate (store.campaigns.get ⟨i, hi⟩) amt) })) =
        ((adminWithdrawExec caller i (runOps l (setStore (setFunds (debit s donor amt) (f + amt))
        { store with campaigns :=
            store.campaigns.set i (donateUpdate (store.campaigns.get ⟨i, hi⟩) amt) }))).1, none) := by
      rw [← h2]
    obtain ⟨ha', store', f', hst', hf', hi', hw', hfd', ht'⟩ := adminWithdrawExec_ok hee
    have hfalse : withdrawnAt (runOps l (setStore (setFunds (debit s donor amt) (f + amt))
        { store with campaigns :=
            store.campaigns.set i (donateUpdate (store.campaigns.get ⟨i, hi⟩) amt) })) i = false := by
      rw [withdrawnAt_eq (by rw [campAt_of_store hst']; exact get?_eq_some_get _ _ hi')]
      exact hw'
    rw [hwu] at hfalse
    cases hfalse

/-- Operations of the concrete C9 scenario: an incomplete campaign force
paid out by the administrator, leaving `completed = false`,
`withdrawn = true`. -/
def c9Ops : List Op :=
  [.initOp 0, .createOp 5 [] [] 100, .donateOp 7 0 30, .adminWithdrawOp 0 0]

/-- The C9 scenario state. -/
def w9 : GlobalState := runOps c9Ops sInit

/-- The withdrawn-but-incomplete campaign of the C9 scenario. -/
def w9camp : Campaign := { owner := 5, title := [], description := [], goal := 100, donated := 30, completed := false, withdrawn := true }

/-- The registry contents of the C9 scenario state. -/
def w9store : CampaignStore := { campaigns := [w9camp], next_id := 1 }

/-- Claim C9 witness: donating 4 octas to the concrete withdrawn-but-
incomplete campaign succeeds, and the escrowed funds are unrecoverable. -/
theorem C9_witness :
    ∃ t, donateExec 8 0 4 w9 = (t, none) ∧
      donatedAt t 0 = donatedAt w9 0 + 4 ∧
      withdrawnAt t 0 = true ∧
      (∀ l caller, (withdrawExec caller 0 (runOps l t)).2 ≠ none) ∧
      (∀ l caller, (adminWithdrawExec caller 0 (runOps l t)).2 ≠ none) :=
  C9_donate_ignores_withdrawn w9 w9store (by decide) 0 (by decide) 0 (by decide)
    (by decide) (by decide) 8 4 (by decide)

/-- The campaign count and creation counter of the store at an address. -/
def countsAt (s : GlobalState) (a : Addr) : Option (Nat × Nat) :=
  (s.stores a).map fun st => (st.campaigns.length, st.next_id)

/-- Claim C10: in every reachable state the creation counter `next_id`
equals the campaign count; initialization creates both at zero and leaves
any existing store untouched; `donate`, `withdraw` and `admin_withdraw`
never change either; and a `create_campaign` on an existing registry
increments both together. -/
theorem C10_next_id_tracks_length :
    (∀ s : GlobalState, Reachable s → ∀ a st, s.stores a = some st →
      st.next_id = st.campaigns.length) ∧
    (∀ x (s : GlobalState), s.stores x = none →
      (step (.initOp x) s).stores x = some { campaigns := [], next_id := 0 }) ∧
    (∀ x (s : GlobalState) a st, s.stores a = some st →
      (step (.initOp x) s).stores a = some st) ∧
    (∀ d i amt (s : GlobalState) a,
      countsAt (step (.donateOp d i amt) s) a = countsAt s a) ∧
    (∀ o i (s : GlobalState) a,
      countsAt (step (.withdrawOp o i) s) a = countsAt s a) ∧
    (∀ x i (s : GlobalState) a,
      countsAt (step (.adminWithdrawOp x i) s) a = countsAt s a) ∧
    (∀ cr ti de g (s : GlobalState) store,
      s.stores admin_address = some store →
      countsAt (step (.createOp cr ti de g) s) admin_address =
        some (store.campaigns.length + 1, store.next_id + 1)) := by
  refine ⟨?_, ?_, ?_, ?_, ?_, ?_, ?_⟩
  · intro s hr a st h
    exact (inv_reachable hr).2.1 a st h
  · intro x s hs
    rw [step_init]
    unfold initExec
    rcases hfv : s.fundsRes x with _ | v <;> simp [hs, hfv]
  · intro x s a st h
    rw [step_init]
    unfold initExec
    rcases hs : s.stores x with _ | st0
    · by_cases hax : a = x
      · subst hax
        rw [hs] at h
        cases h
      · rcases hfv : s.fundsRes x with _ | v <;> simp [hs, hfv, hax, h]
    · rcases hfv : s.fundsRes x with _ | v <;> simp [hs, hfv, h]
  · intro d i amt s a
    rcases hr : execOp (.donateOp d i amt) s with ⟨s', e⟩
    cases e with
    | some err => rw [step_of_err _ _ err (by rw [hr])]
    | none =>
      rw [step_of_ok _ _ s' hr]
      obtain ⟨store, f, hst, hf, hj, hcomp, hbal, ht⟩ :=
        donateExec_ok (show donateExec d i amt s = (s', none) from hr)
      subst ht
      by_cases hax : a = admin_address
      · subst hax
        simp [countsAt, setStore, hst]
      · simp [countsAt, setStore, hax]
  · intro o i s a
    rcases hr : execOp (.withdrawOp o i) s with ⟨s', e⟩
    cases e with
    | some err => rw [step_of_err _ _ err (by rw [hr])]
    | none =>
      rw [step_of_ok _ _ s' hr]
      obtain ⟨store, f, hst, hf, hj, hown, hcomp, hw, hfd, ht⟩ :=
        withdrawExec_ok (show withdrawExec o i s = (s', none) from hr)
      subst ht
      by_cases hax : a = admin_address
      · subst hax
        simp [countsAt, setStore, hst]
      · simp [countsAt, setStore, hax]
  · intro x i s a
    rcases hr : execOp (.adminWithdrawOp x i) s with ⟨s', e⟩
    cases e with
    | some err => rw [step_of_err _ _ err (by rw [hr])]
    | none =>
      rw [step_of_ok _ _ s' hr]
      obtain ⟨ha, store, f, hst, hf, hj, hw, hfd, ht⟩ :=
        adminWithdrawExec_ok (show adminWithdrawExec x i s = (s', none) from hr)
      subst ht
      by_cases hax : a = admin_address
      · subst hax
        simp [countsAt, setStore, hst]
      · simp [countsAt, setStore, hax]
  · intro cr ti de g s store hst
    have hex : execOp (.createOp cr ti de g) s =
        (setStore s
          { campaigns := store.campaigns ++
              [{ owner := cr, title := ti, description := de,
                 goal := g, donated := 0, completed := false, withdrawn := false }],
            next_id := store.next_id + 1 }, none) := by
      simp [execOp, createExec, hst]
    rw [step_of_ok _ _ _ hex]
    simp [countsAt, setStore]

/-- Claim C10 witness: the invariant on the concrete C2 state, and one
concrete creation incrementing count and counter together. -/
theorem C10_witness :
    w2store.next_id = w2store.campaigns.length ∧
    countsAt (step (.createOp 5 [] [] 10) (step (.initOp 0) sInit)) admin_address =
      some (1, 1) := by
  constructor
  · exact C10_next_id_tracks_length.1 w2
      (reachableW_runOps _ c2Ops sInit (fun _ _ => trivial) (ReachableW.base bal0))
      admin_address w2store (by decide)
  · have h := C10_next_id_tracks_length.2.2.2.2.2.2 5 [] [] 10
      (step (.initOp 0) sInit) { campaigns := [], next_id := 0 } (by decide)
    simpa using h

/-- Operations of the C1 counterexample scenario: the administrator force
pays out an incomplete campaign. -/
def c1Ops : List Op :=
  [.initOp 0, .createOp 5 [] [] 10, .donateOp 7 0 3, .adminWithdrawOp 0 0]

/-- The C1 counterexample state. -/
def w1 : GlobalState := runOps c1Ops sInit

/-- Claim C1 counterexample: a reachable state (via `admin_withdraw` on an
incomplete campaign) in which campaign 0 has `withdrawn = true` but
`completed = false`, refuting the unrestricted implication
`withdrawn → completed`. -/
theorem C1_counterexample :
    Reachable w1 ∧ withdrawnAt w1 0 = true ∧ completedAt w1 0 = false :=
  ⟨reachableW_runOps _ c1Ops sInit (fun _ _ => trivial) (ReachableW.base bal0),
   by decide, by decide⟩

/-- Claim C1 (amended): after every operation each campaign's `withdrawn`
flag never reverts from true to false (so it transitions false→true at
most once over the campaign's lifetime); and in every state reachable
using CreateCampaign, Donate and Withdraw only — without AdminWithdraw —
`withdrawn = true` implies `completed = true`. -/
theorem C1_withdrawn_invariant :
    (∀ (op : Op) (s : GlobalState) (i : Nat),
      withdrawnAt s i = true → withdrawnAt (step op s) i = true) ∧
    (∀ s : GlobalState, ReachableW NoAdminWithdraw s →
      ∀ i c, campAt s i = some c → c.withdrawn = true → c.completed = true) :=
  ⟨withdrawnAt_mono, fun _ hs => wic_reachable hs⟩

/-- Operations of the C1 witness scenario: a campaign completed and then
withdrawn by its owner, with no AdminWithdraw involved. -/
def c1wOps : List Op :=
  [.initOp 0, .createOp 5 [] [] 10, .donateOp 7 0 10, .withdrawOp 5 0]

/-- The C1 witness state. -/
def w1w : GlobalState := runOps c1wOps sInit

/-- The withdrawn campaign of the C1 witness state. -/
def w1wcamp : Campaign := { owner := 5, title := [], description := [], goal := 10, donated := 10, completed := true, withdrawn := true }

/-- Claim C1 witness: on the concrete owner-withdrawn campaign, a further
operation keeps `withdrawn = true`, and the AdminWithdraw-free invariant
yields `completed = true`. -/
theorem C1_witness :
    withdrawnAt (step (.donateOp 7 0 1) w1w) 0 = true ∧
    campAt w1w 0 = some w1wcamp ∧ w1wcamp.completed = true := by
  have hna : ∀ op ∈ c1wOps, NoAdminWithdraw op := by
    intro op hop
    simp [c1wOps] at hop
    rcases hop with rfl | rfl | rfl | rfl <;> intro a j h <;> simp at h
  refine ⟨C1_withdrawn_invariant.1 (.donateOp 7 0 1) w1w 0 (by decide), by decide, ?_⟩
  exact C1_withdrawn_invariant.2 w1w
    (reachableW_runOps _ c1wOps sInit hna (ReachableW.base bal0))
    0 w1wcamp (by decide) (by decide)

end Backend
